import Mathlib

/-!
Verification of the PerfPro `.3dp` converter (`src/converter.js`).

The decoder `parse3dp` and the serializer `buildTcx` are shallowly embedded
below.  An input `ArrayBuffer` is modelled as a `List Nat`; every read goes
through `byteAt`, which reduces modulo 256 exactly as a `Uint8Array` cell
stores only 0–255.  JavaScript numbers are IEEE doubles; every number that
actually arises in this program (uint8 fields, uint32 timestamps, decoded
float32 distances, their sums, products by 1000 and quotients) is an exact
rational or an infinity/NaN, so numbers are modelled by `JsNum`
(a rational, an infinity, or NaN).  The source constants `0.05` and the
divisions feeding `Math.round` are modelled by exact rational arithmetic;
the double roundings they suffer in JavaScript are below 2⁻⁴⁵ relative
error and cannot change any comparison reachable with fewer than about
10¹⁵ records, far beyond any buffer of realistic size.
-/

set_option maxRecDepth 100000

set_option maxHeartbeats 2000000

namespace PerfPro

/-- A JavaScript number value as it occurs in this program: NaN, a signed
infinity, or an exactly represented finite value.

Rationals are always constructed through `mkRat` or integer arithmetic on
`num`/`den` (never through the `ℚ` field operations, which Mathlib keeps
irreducible), so that every value in the decode path evaluates by kernel
reduction; bridging lemmas below restate each construction in terms of the
ordinary `ℚ` operations. -/
inductive JsNum where
  | nan : JsNum
  | inf (neg : Bool) : JsNum
  | fin (q : ℚ) : JsNum
deriving DecidableEq, Repr

namespace JsNum

/-- JavaScript `x > 0` (false on NaN). -/
def gtZero : JsNum → Bool
  | nan => false
  | inf neg => !neg
  | fin q => decide (0 < q)

/-- JavaScript `x * 1000`, used for the km → m conversion.  The product of a
decoded float32 by 1000 fits in 34 significand bits, so it is exact. -/
def mul1000 : JsNum → JsNum
  | nan => nan
  | inf b => inf b
  | fin q => fin (mkRat (q.num * 1000) q.den)

/-- JavaScript `x <= y` (false whenever either side is NaN). -/
def le : JsNum → JsNum → Bool
  | fin a, fin b => decide (a ≤ b)
  | fin _, inf b => !b
  | inf a, fin _ => a
  | inf a, inf b => a || !b
  | _, _ => false

end JsNum

/-! ### Byte-level readers (`converter.js` helpers) -/

/-- One cell of the `Uint8Array` view: out-of-range indices are never read by
the parser, and stored values are 0–255. -/
def byteAt (bytes : List Nat) (i : Nat) : Nat := (bytes.getD i 0) % 256

/-- `readUint32LE`: `b0 | b1<<8 | b2<<16 | b3<<24 >>> 0`.  On byte values
0–255 the bitwise composition equals this weighted sum. -/
def readUint32LE (bytes : List Nat) (off : Nat) : Nat :=
  byteAt bytes off + 256 * byteAt bytes (off + 1) +
    65536 * byteAt bytes (off + 2) + 16777216 * byteAt bytes (off + 3)

/-- `readFloat32LE`: decode the IEEE 754 binary32 value stored little-endian
at `off` into its exact value. -/
def readFloat32LE (bytes : List Nat) (off : Nat) : JsNum :=
  let n : Nat := readUint32LE bytes off
  let sign : Nat := n / 2 ^ 31
  let ex : Nat := n / 2 ^ 23 % 256
  let frac : Nat := n % 2 ^ 23
  if ex = 255 then
    if frac = 0 then .inf (sign == 1) else .nan
  else if ex = 0 then
    .fin (mkRat ((if sign = 1 then (-1 : ℤ) else 1) * frac) (2 ^ 149))
  else
    .fin (mkRat ((if sign = 1 then (-1 : ℤ) else 1) * (2 ^ 23 + frac) * 2 ^ ex) (2 ^ 150))

/-- `isDataRecord`: bytes 1–3 of the slot must equal `0x00 0x01 0x00`. -/
def isDataRecord (bytes : List Nat) (off : Nat) : Bool :=
  byteAt bytes (off + 1) == 0 && byteAt bytes (off + 2) == 1 && byteAt bytes (off + 3) == 0

/-! ### Format constants -/

def RECORD_START : Nat := 0x110

def RECORD_SIZE : Nat := 48

def WATTS_OFFSET : Nat := 4

def CADENCE_OFFSET : Nat := 38

def HR_OFFSET : Nat := 46

def DIST_KM_OFFSET : Nat := 40

def TIMESTAMP_MS_OFFSET : Nat := 32

def MAX_DELTA_MS : Nat := 5000

def CADENCE_DEFAULT : Nat := 90

def HR_DEFAULT : Nat := 50

/-- The fields the loop body reads out of one accepted 48-byte record. -/
structure RawRec where
  watts : Nat
  ms : Nat
  cadence : Nat
  hr : Nat
  distKm : JsNum
deriving DecidableEq, Repr

/-- Read the record slot at byte offset `off`. -/
def readRec (bytes : List Nat) (off : Nat) : RawRec :=
  { watts := byteAt bytes (off + WATTS_OFFSET)
    ms := readUint32LE bytes (off + TIMESTAMP_MS_OFFSET)
    cadence := byteAt bytes (off + CADENCE_OFFSET)
    hr := byteAt bytes (off + HR_OFFSET)
    distKm := readFloat32LE bytes (off + DIST_KM_OFFSET) }

/-- `Math.floor((bytes.length - RECORD_START) / RECORD_SIZE)` (the length
guard in `parse3dp` makes the subtraction nonnegative). -/
def totalSlots (bytes : List Nat) : Nat := (bytes.length - RECORD_START) / RECORD_SIZE

/-! ### The scan state of the `parse3dp` loop

JavaScript `Map`s preserve insertion order and have unique keys; they are
modelled as association lists where `set`/`push` update the existing entry
in place or append a fresh one at the end. -/

/-- `if (!m.has(k)) m.set(k, []); m.get(k).push(v)`. -/
def mapPush (m : List (Nat × List Nat)) (k : Nat) (v : Nat) : List (Nat × List Nat) :=
  if m.any (fun e => e.1 == k) then
    m.map (fun e => if e.1 == k then (e.1, e.2 ++ [v]) else e)
  else m ++ [(k, [v])]

/-- `m.set(k, v)` on a `Map` from seconds to a number. -/
def mapSet (m : List (Nat × JsNum)) (k : Nat) (v : JsNum) : List (Nat × JsNum) :=
  if m.any (fun e => e.1 == k) then
    m.map (fun e => if e.1 == k then (k, v) else e)
  else m ++ [(k, v)]

/-- `m.get(k)` on a `Map` from seconds to a number. -/
def mapLookup (m : List (Nat × JsNum)) (k : Nat) : Option JsNum :=
  (m.find? (fun e => e.1 == k)).map (fun e => e.2)

/-- `m.get(k)` on a bucket map, total because the parser only calls it on
present keys. -/
def getList (m : List (Nat × List Nat)) (k : Nat) : List Nat :=
  ((m.find? (fun e => e.1 == k)).map (fun e => e.2)).getD []

/-- The mutable locals of the `parse3dp` scan loop.  The JavaScript sentinel
`prevMs = -1` is modelled as `none`. -/
structure ScanState where
  wattsBySecond : List (Nat × List Nat)
  cadenceBySecond : List (Nat × List Nat)
  hrBySecond : List (Nat × List Nat)
  distBySecond : List (Nat × JsNum)
  validCount : Nat
  realCadence : Nat
  realHR : Nat
  prevMs : Option Nat
  lastValidMs : Nat
deriving DecidableEq, Repr

def startState : ScanState := ⟨[], [], [], [], 0, 0, 0, none, 0⟩

/-- One iteration of the `for (let i = 0; i < totalSlots; i++)` loop. -/
def scanStep (bytes : List Nat) (st : ScanState) (i : Nat) : ScanState :=
  let off := RECORD_START + i * RECORD_SIZE
  if isDataRecord bytes off then
    let ms := readUint32LE bytes (off + TIMESTAMP_MS_OFFSET)
    if (match st.prevMs with
        | some p => decide ((ms : ℤ) - p > MAX_DELTA_MS)
        | none => false) then
      st
    else
      let watts := byteAt bytes (off + WATTS_OFFSET)
      let cadence := byteAt bytes (off + CADENCE_OFFSET)
      let hr := byteAt bytes (off + HR_OFFSET)
      let distKm := readFloat32LE bytes (off + DIST_KM_OFFSET)
      let sec := ms / 1000
      { wattsBySecond := mapPush st.wattsBySecond sec watts
        cadenceBySecond := mapPush st.cadenceBySecond sec cadence
        hrBySecond := mapPush st.hrBySecond sec hr
        distBySecond :=
          if distKm.gtZero then mapSet st.distBySecond sec distKm else st.distBySecond
        validCount := st.validCount + 1
        realCadence :=
          st.realCadence + (if cadence ≠ CADENCE_DEFAULT ∧ cadence ≠ 0 then 1 else 0)
        realHR := st.realHR + (if hr ≠ HR_DEFAULT ∧ hr ≠ 0 then 1 else 0)
        prevMs := some ms
        lastValidMs := ms }
  else st

/-- The whole scan loop. -/
def scanAll (bytes : List Nat) : ScanState :=
  (List.range (totalSlots bytes)).foldl (scanStep bytes) startState

/-! ### Numeric helpers -/

/-- JavaScript `Math.round` on a (non-NaN) number: the nearest integer,
halves rounding toward +∞, computed as the floor division
`⌊(2·num + den) / (2·den)⌋`; `jsRound_eq` below identifies this with
`⌊q + 1/2⌋`. -/
def jsRound (q : ℚ) : ℤ := (2 * q.num + q.den) / (2 * q.den)

/-- `avgInt(arr) = Math.round(arr.reduce((s,v) => s+v, 0) / arr.length)`.
The sum of uint8 readings is an exact integer and `mkRat` forms the exact
quotient.  The double division is exact whenever the true quotient is
representable (in particular at every exact-half tie), and never strays
across a tie boundary for any bucket a real buffer can produce, so the
quotient is modelled exactly. -/
def avgInt (arr : List Nat) : ℤ := jsRound (mkRat (arr.sum : ℤ) arr.length)

/-- `Array.from(m.keys()).sort((a, b) => a - b)` on a map whose keys are the
distinct naturals of `l`: the ascending enumeration of those keys. -/
def sortedKeys (l : List Nat) : List Nat :=
  (List.range (l.foldr max 0 + 1)).filter (fun s => l.contains s)

/-! ### Athlete-name field (`readNullTermString` + `TextDecoder('utf-8')`) -/

/-- Is `b` a UTF-8 continuation byte (`0x80–0xBF`)? -/
def isCont (b : Nat) : Bool := 128 ≤ b && b < 192

/-- WHATWG `TextDecoder('utf-8')` in its default non-fatal mode: malformed
input emits U+FFFD and resumes at the first unconsumed byte.  Fuelled by the
input length; each step consumes at least one byte. -/
def utf8Aux : Nat → List Nat → List Char
  | 0, _ => []
  | _ + 1, [] => []
  | fuel + 1, b :: rest =>
    if b < 128 then Char.ofNat b :: utf8Aux fuel rest
    else if 194 ≤ b ∧ b ≤ 223 then
      match rest with
      | [] => ['�']
      | c1 :: rest1 =>
        if isCont c1 then Char.ofNat ((b - 192) * 64 + (c1 - 128)) :: utf8Aux fuel rest1
        else '�' :: utf8Aux fuel rest
    else if 224 ≤ b ∧ b ≤ 239 then
      match rest with
      | [] => ['�']
      | c1 :: rest1 =>
        if (if b = 224 then 160 ≤ c1 && c1 ≤ 191
            else if b = 237 then 128 ≤ c1 && c1 ≤ 159
            else isCont c1) then
          match rest1 with
          | [] => ['�']
          | c2 :: rest2 =>
            if isCont c2 then
              Char.ofNat ((b - 224) * 4096 + (c1 - 128) * 64 + (c2 - 128)) ::
                utf8Aux fuel rest2
            else '�' :: utf8Aux fuel rest1
        else '�' :: utf8Aux fuel rest
    else if 240 ≤ b ∧ b ≤ 244 then
      match rest with
      | [] => ['�']
      | c1 :: rest1 =>
        if (if b = 240 then 144 ≤ c1 && c1 ≤ 191
            else if b = 244 then 128 ≤ c1 && c1 ≤ 143
            else isCont c1) then
          match rest1 with
          | [] => ['�']
          | c2 :: rest2 =>
            if isCont c2 then
              match rest2 with
              | [] => ['�']
              | c3 :: rest3 =>
                if isCont c3 then
                  Char.ofNat ((b - 240) * 262144 + (c1 - 128) * 4096 +
                      (c2 - 128) * 64 + (c3 - 128)) :: utf8Aux fuel rest3
                else '�' :: utf8Aux fuel rest2
            else '�' :: utf8Aux fuel rest1
        else '�' :: utf8Aux fuel rest
    else '�' :: utf8Aux fuel rest

def utf8Decode (l : List Nat) : List Char := utf8Aux l.length l

/-- `readNullTermString(bytes, offset, maxLen)`: take the slice, cut at the
first NUL (or the whole slice when none), decode as UTF-8. -/
def readNullTermString (bytes : List Nat) (off maxLen : Nat) : String :=
  ⟨utf8Decode ((((bytes.drop off).take maxLen).map (fun b => b % 256)).takeWhile
      (fun b => b ≠ 0))⟩

/-! ### The decoded workout -/

structure Trackpoint where
  sec : Nat
  watts : ℤ
  cadence : Option ℤ
  hr : Option ℤ
  distMeters : Option JsNum
deriving DecidableEq, Repr

structure Stats where
  durationSec : Nat
  avgWatts : ℤ
  maxWatts : ℤ
  hasCadence : Bool
  hasHR : Bool
  recordCount : Nat
  totalDistMeters : JsNum
deriving DecidableEq, Repr

structure Workout where
  athleteName : String
  trackpoints : List Trackpoint
  stats : Stats
deriving DecidableEq, Repr

/-- The sensor-presence threshold `0.05`, modelled as the exact rational
`1/20` (see the header note on double rounding). -/
def SENSOR_THRESHOLD : ℚ := 1 / 20

def HEADER_NAME_OFFSET : Nat := 0x10

/-- The success branch of `parse3dp` as a function of the two pieces of the
input it reads: the raw athlete-name field and the final scan state. -/
def mkWorkoutFrom (rawName : String) (st : ScanState) : Workout :=
  let athleteName := if rawName = "" then "Unknown" else rawName
  -- `realCadence / validCount > SENSOR_THRESHOLD` with the exact threshold
  -- 1/20, written cross-multiplied so it evaluates on integers; equivalent
  -- for every validCount > 0 (`sensor_iff` below), and agreeing at
  -- validCount = 0 too (JavaScript compares NaN, getting false; here
  -- realCadence ≤ validCount = 0 forces false as well).
  let hasCadence := decide (st.validCount < 20 * st.realCadence)
  let hasHR := decide (st.validCount < 20 * st.realHR)
  let seconds := sortedKeys (st.wattsBySecond.map Prod.fst)
  let trackpoints := seconds.map (fun sec =>
    let w := avgInt (getList st.wattsBySecond sec)
    let c : Option ℤ := if hasCadence then some (avgInt (getList st.cadenceBySecond sec)) else none
    let h : Option ℤ := if hasHR then some (avgInt (getList st.hrBySecond sec)) else none
    let d : Option JsNum := (mapLookup st.distBySecond sec).map JsNum.mul1000
    { sec := sec
      watts := w
      cadence := match c with | some cv => if cv ≠ 0 then some cv else none | none => none
      hr := match h with | some hv => if hv ≠ 0 then some hv else none | none => none
      distMeters := d })
  let allWatts : List ℤ :=
    (trackpoints.map (fun t => t.watts)).filter (fun w => decide (0 < w))
  let durationSec := st.lastValidMs / 1000
  let lastDist := trackpoints.reverse.find? (fun t => t.distMeters.isSome)
  let totalDistMeters : JsNum :=
    match lastDist with
    | some t => t.distMeters.getD (.fin 0)
    | none => .fin 0
  { athleteName := athleteName
    trackpoints := trackpoints
    stats :=
      { durationSec := durationSec
        avgWatts :=
          if allWatts.length ≠ 0 then jsRound (mkRat allWatts.sum allWatts.length)
          else 0
        maxWatts := if allWatts.length ≠ 0 then (allWatts.max?).getD 0 else 0
        hasCadence := hasCadence
        hasHR := hasHR
        recordCount := st.validCount
        totalDistMeters := totalDistMeters } }

/-- The success branch of `parse3dp` on the raw buffer. -/
def mkWorkout (bytes : List Nat) : Workout :=
  mkWorkoutFrom (readNullTermString bytes HEADER_NAME_OFFSET 64) (scanAll bytes)

def tooSmallMsg : String := "File is too small to be a valid .3dp file."

def noDataMsg : String := "No valid data records found — this may not be a .3dp file."

/-- `parse3dp`: the two failure guards around the success result. -/
def parse3dp (bytes : List Nat) : Except String Workout :=
  if bytes.length < RECORD_START + RECORD_SIZE then .error tooSmallMsg
  else if (scanAll bytes).validCount = 0 then .error noDataMsg
  else .ok (mkWorkout bytes)

/-! ### Decimal rendering (template interpolation and `toFixed(2)`) -/

def digitChar : Nat → Char
  | 0 => '0' | 1 => '1' | 2 => '2' | 3 => '3' | 4 => '4'
  | 5 => '5' | 6 => '6' | 7 => '7' | 8 => '8' | 9 => '9'
  | _ => '*'

/-- Decimal digits of `n`, most significant first; the fuel bounds the digit
count and `n + 1` always suffices. -/
def natDigitsAux : Nat → Nat → List Char
  | 0, _ => []
  | fuel + 1, n =>
    if n < 10 then [digitChar n]
    else natDigitsAux fuel (n / 10) ++ [digitChar (n % 10)]

def natChars (n : Nat) : List Char := natDigitsAux (n + 1) n

def natStr (n : Nat) : String := ⟨natChars n⟩

/-- JavaScript `ToString` of an integer-valued number (all integers rendered
by this program are far below 2⁵³). -/
def intStr (i : ℤ) : String := (if i < 0 then "-" else "") ++ natStr i.natAbs

def pad2Chars (n : Nat) : List Char := (if n < 10 then ['0'] else []) ++ natChars n

/-- `Number.prototype.toFixed(2)` on a finite value of magnitude below 10²¹:
sign, then the integer `n` nearest `100·|x|` (ties upward, i.e.
`⌊100·|x| + 1/2⌋`, see `fixed2_n_eq`), with a decimal point before its last
two digits. -/
def fixed2Chars (x : ℚ) : List Char :=
  (if x < 0 then ['-'] else []) ++
    natChars ((jsRound (mkRat (100 * x.num.natAbs : ℤ) x.den)).toNat / 100) ++ ['.'] ++
    pad2Chars ((jsRound (mkRat (100 * x.num.natAbs : ℤ) x.den)).toNat % 100)

def toFixed2Q (x : ℚ) : String := ⟨fixed2Chars x⟩

def stripTrailingZeros (l : List Char) : List Char :=
  (l.reverse.dropWhile (fun c => c == '0')).reverse

/-- JavaScript `ToString` of a number of magnitude ≥ 10²¹ (every such value
reachable here is an exact integer): exponential notation.  JavaScript picks
the shortest digit string that round-trips through the double; the exact
digits written here can be longer, which no claim inspects — every use below
only needs that this branch does not produce a two-decimal fixed rendering. -/
def expChars (q : ℚ) : List Char :=
  (if q < 0 then ['-'] else []) ++
    (match natChars (q.num.natAbs / q.den) with
      | [] => []
      | d :: ds =>
        (d :: (if stripTrailingZeros ds = [] then [] else '.' :: stripTrailingZeros ds)) ++
          'e' :: '+' :: natChars ds.length)

def jsLargeStr (q : ℚ) : String := ⟨expChars q⟩

/-- `x.toFixed(2)` on a JavaScript number, following the ECMA-262 algorithm:
NaN and the infinities render as `ToString(x)`, as do finite values of
magnitude ≥ 10²¹; everything else gets the fixed two-decimal form. -/
def toFixed2 : JsNum → String
  | .nan => "NaN"
  | .inf b => if b then "-Infinity" else "Infinity"
  | .fin q =>
    -- `10²¹ ≤ |q|`, cross-multiplied onto the numerator (`big_iff` below)
    if (10 ^ 21 : ℤ) * q.den ≤ q.num.natAbs then jsLargeStr q else toFixed2Q q

/-! ### `isoTimestamp`: `date.toISOString()` with the `.sss` milliseconds
stripped by the regex replace -/

def padN (k n : Nat) : List Char :=
  List.replicate (k - (natChars n).length) '0' ++ natChars n

/-- Proleptic-Gregorian date of a day count since 1970-01-01
(the standard era-based civil-from-days computation). -/
def civilFromDays (z0 : ℤ) : ℤ × Nat × Nat :=
  let z := z0 + 719468
  let era := Int.fdiv z 146097
  let doe := (z - era * 146097).toNat
  let yoe := (doe - doe / 1460 + doe / 36524 - doe / 146096) / 365
  let doy := doe - (365 * yoe + yoe / 4 - yoe / 100)
  let mp := (5 * doy + 2) / 153
  let da := doy - (153 * mp + 2) / 5 + 1
  let mo := if mp < 10 then mp + 3 else mp - 9
  ((yoe : ℤ) + era * 400 + (if mo ≤ 2 then 1 else 0), mo, da)

/-- `Date.prototype.toISOString` year field: four digits for 0–9999,
otherwise the signed six-digit expanded form. -/
def yearChars (y : ℤ) : List Char :=
  if 0 ≤ y ∧ y ≤ 9999 then padN 4 y.toNat
  else if y < 0 then '-' :: padN 6 y.natAbs
  else '+' :: padN 6 y.toNat

/-- `isoTimestamp(new Date(ms))`: the UTC calendar fields of the epoch
instant, second precision (the source strips `.sssZ` and appends `Z`). -/
def isoTimestamp (ms : ℤ) : String :=
  let d := Int.fdiv ms 86400000
  let msod := (ms - d * 86400000).toNat
  let ymd := civilFromDays d
  ⟨yearChars ymd.1 ++ '-' :: padN 2 ymd.2.1 ++ '-' :: padN 2 ymd.2.2 ++
    'T' :: padN 2 (msod / 3600000) ++ ':' :: padN 2 (msod / 60000 % 60) ++
    ':' :: padN 2 (msod / 1000 % 60) ++ ['Z']⟩

/-! ### `buildTcx` -/

/-- One `<Trackpoint>` fragment. -/
def trackpointXml (startMs : ℤ) (tp : Trackpoint) : String :=
  let t := startMs + (tp.sec : ℤ) * 1000
  let hrBlock :=
    match tp.hr with
    | some h => "            <HeartRateBpm><Value>" ++ intStr h ++ "</Value></HeartRateBpm>\n"
    | none => ""
  let distLine :=
    match tp.distMeters with
    | some d => "            <DistanceMeters>" ++ toFixed2 d ++ "</DistanceMeters>\n"
    | none => ""
  let cadLine :=
    match tp.cadence with
    | some c => "              <ns3:RunCadence>" ++ intStr c ++ "</ns3:RunCadence>\n"
    | none => ""
  "          <Trackpoint>\n            <Time>" ++ isoTimestamp t ++ "</Time>\n" ++
    hrBlock ++ distLine ++
    "            <Extensions>\n              <ns3:TPX xmlns:ns3=\"http://www.garmin.com/xmlschemas/ActivityExtension/v2\">\n              <ns3:Watts>" ++
    intStr tp.watts ++ "</ns3:Watts>\n" ++ cadLine ++
    "              </ns3:TPX>\n            </Extensions>\n          </Trackpoint>"

/-- Everything the template emits before the lap-level `DistanceMeters`
value. -/
def tcxBeforeDist (w : Workout) (startMs : ℤ) : String :=
  "<?xml version=\"1.0\" encoding=\"UTF-8\"?>\n<TrainingCenterDatabase\n  xmlns=\"http://www.garmin.com/xmlschemas/TrainingCenterDatabase/v2\"\n  xmlns:xsi=\"http://www.w3.org/2001/XMLSchema-instance\"\n  xsi:schemaLocation=\"http://www.garmin.com/xmlschemas/TrainingCenterDatabase/v2\n    http://www.garmin.com/xmlschemas/TrainingCenterDatabasev2.xsd\">\n  <Activities>\n    <Activity Sport=\"Biking\">\n      <Id>" ++
    isoTimestamp startMs ++ "</Id>\n      <Lap StartTime=\"" ++ isoTimestamp startMs ++
    "\">\n        <TotalTimeSeconds>" ++ natStr w.stats.durationSec ++
    "</TotalTimeSeconds>\n        <DistanceMeters>"

/-- Everything the template emits after the lap-level `DistanceMeters`
value. -/
def tcxAfterDist (w : Workout) (startMs : ℤ) : String :=
  "</DistanceMeters>\n        <Calories>0</Calories>\n        <Intensity>Active</Intensity>\n        <TriggerMethod>Manual</TriggerMethod>\n        <Track>\n" ++
    String.intercalate "\n" (w.trackpoints.map (trackpointXml startMs)) ++
    "\n        </Track>\n        <Extensions>\n          <ns3:LX xmlns:ns3=\"http://www.garmin.com/xmlschemas/ActivityExtension/v2\">\n            <ns3:AvgWatts>" ++
    intStr w.stats.avgWatts ++ "</ns3:AvgWatts>\n            <ns3:MaxWatts>" ++
    intStr w.stats.maxWatts ++
    "</ns3:MaxWatts>\n          </ns3:LX>\n        </Extensions>\n      </Lap>\n    </Activity>\n  </Activities>\n</TrainingCenterDatabase>\n"

/-- `buildTcx(workout, startTime)`, with the start instant given as its epoch
millisecond value. -/
def buildTcx (w : Workout) (startMs : ℤ) : String :=
  tcxBeforeDist w startMs ++ toFixed2 w.stats.totalDistMeters ++ tcxAfterDist w startMs

/-! ## The accepted-record view of the scan

The claims speak about "accepted records in scan order": the records that
match the signature and pass the timestamp-delta filter.  `acceptedRecords`
computes exactly that list, and `scanAll_eq` proves that the loop state is
determined by it: each map, counter and cursor of `ScanState` is the
corresponding fold over the accepted list. -/

def recOffset (i : Nat) : Nat := RECORD_START + i * RECORD_SIZE

/-- How slot `i` transforms the list of accepted records: skipped unless the
signature matches; skipped when a previous record was accepted and the new
timestamp exceeds it by more than `MAX_DELTA_MS`; appended otherwise. -/
def acceptStep (bytes : List Nat) (l : List RawRec) (i : Nat) : List RawRec :=
  if isDataRecord bytes (recOffset i) then
    let r := readRec bytes (recOffset i)
    match l.getLast? with
    | some p => if (r.ms : ℤ) - p.ms > MAX_DELTA_MS then l else l ++ [r]
    | none => l ++ [r]
  else l

/-- The records accepted by the scan, in scan order. -/
def acceptedRecords (bytes : List Nat) : List RawRec :=
  (List.range (totalSlots bytes)).foldl (acceptStep bytes) []

def bucketsW (l : List RawRec) : List (Nat × List Nat) :=
  l.foldl (fun m r => mapPush m (r.ms / 1000) r.watts) []

def bucketsC (l : List RawRec) : List (Nat × List Nat) :=
  l.foldl (fun m r => mapPush m (r.ms / 1000) r.cadence) []

def bucketsH (l : List RawRec) : List (Nat × List Nat) :=
  l.foldl (fun m r => mapPush m (r.ms / 1000) r.hr) []

def bucketsD (l : List RawRec) : List (Nat × JsNum) :=
  l.foldl (fun m r => if r.distKm.gtZero then mapSet m (r.ms / 1000) r.distKm else m) []

def countCad (l : List RawRec) : Nat :=
  l.countP (fun r => decide (r.cadence ≠ CADENCE_DEFAULT ∧ r.cadence ≠ 0))

def countHR (l : List RawRec) : Nat :=
  l.countP (fun r => decide (r.hr ≠ HR_DEFAULT ∧ r.hr ≠ 0))

/-- `lastValidMs` as a function of the accepted list (0 before any record is
accepted, as in the source). -/
def lastMs (l : List RawRec) : Nat := ((l.getLast?).map (fun r => r.ms)).getD 0

/-- The scan state reconstructed from the accepted list. -/
def stateOf (l : List RawRec) : ScanState :=
  ⟨bucketsW l, bucketsC l, bucketsH l, bucketsD l, l.length, countCad l, countHR l,
    (l.getLast?).map (fun r => r.ms), lastMs l⟩

/-! ## Distance sequences and monotonicity (claim C6) -/

/-- The non-absent distance values across the ordered trackpoints. -/
def distSeq (w : Workout) : List JsNum :=
  w.trackpoints.filterMap (fun tp => tp.distMeters)

/-- `chainB R l`: every consecutive pair of `l` satisfies `R`. -/
def chainB {α : Type} (R : α → α → Bool) : List α → Bool
  | [] => true
  | [_] => true
  | a :: b :: t => R a b && chainB R (b :: t)

/-- The distance sequence is non-decreasing in the JavaScript `<=` order. -/
def distancesNonDecreasing (w : Workout) : Prop :=
  chainB JsNum.le (distSeq w) = true

/-- Claim C6 as stated, at one input buffer. -/
def decodeDistMono (bytes : List Nat) : Prop :=
  ∀ w : Workout, parse3dp bytes = .ok w → distancesNonDecreasing w

/-- The distance reading retained for second-bucket `s`: the last accepted
record in that second with a positive reading. -/
def lastPosDist (l : List RawRec) (s : Nat) : Option JsNum :=
  ((l.filter (fun r => r.ms / 1000 == s && r.distKm.gtZero)).getLast?).map
    (fun r => r.distKm)

/-! ## The two-decimal rendering shape (claim C8) -/

def isDigitB (c : Char) : Bool := 48 ≤ c.toNat && c.toNat ≤ 57

def noDotB : List Char → Bool
  | [] => true
  | c :: t => !(c == '.') && noDotB t

/-- The string ends in a dot followed by exactly two decimal digits and
contains no other dot: "rendered with exactly two decimal digits". -/
def twoDecB (s : String) : Bool :=
  match s.data.reverse with
  | d0 :: d1 :: c :: rest => isDigitB d0 && isDigitB d1 && (c == '.') && noDotB rest
  | _ => false

/-- Little-endian bytes of a 32-bit millisecond value. -/
def msBytes (ms : Nat) : List Nat :=
  [ms % 256, ms / 256 % 256, ms / 65536 % 256, ms / 16777216 % 256]

/-- A well-formed 48-byte record slot: signature `00 01 00` at bytes 1–3,
watts at 4, timestamp at 32–35, cadence at 38–39, distance float at 40–43,
heart rate at 46–47. -/
def mkRecord (watts ms cadence hr : Nat) (dist : List Nat) : List Nat :=
  [0, 0, 1, 0, watts] ++ List.replicate 27 0 ++ msBytes ms ++
    [0, 0, cadence, cadence] ++ dist ++ [0, 0, hr, hr]

/-- An all-zero 272-byte header region. -/
def blankHeader : List Nat := List.replicate 272 0

/-- Two records in second 0 (timestamps 0 and 550 ms) with watts 100, 101. -/
def bufA : List Nat :=
  blankHeader ++ mkRecord 100 0 0 0 [0, 0, 0, 0] ++ mkRecord 101 550 0 0 [0, 0, 0, 0]

/-- Timestamps 0, 550, 1100 and a corrupt 1 100 000 000 ms tail. -/
def bufC2 : List Nat :=
  blankHeader ++ mkRecord 100 0 0 0 [0, 0, 0, 0] ++ mkRecord 110 550 0 0 [0, 0, 0, 0] ++
    mkRecord 120 1100 0 0 [0, 0, 0, 0] ++ mkRecord 130 1100000000 0 0 [0, 0, 0, 0]

/-- `bufC2` without its corrupt final record. -/
def bufC2three : List Nat :=
  blankHeader ++ mkRecord 100 0 0 0 [0, 0, 0, 0] ++ mkRecord 110 550 0 0 [0, 0, 0, 0] ++
    mkRecord 120 1100 0 0 [0, 0, 0, 0]

/-- One record of two with a non-default cadence (100 rpm); heart rate stays
at 0. -/
def bufC3 : List Nat :=
  blankHeader ++ mkRecord 100 0 100 0 [0, 0, 0, 0] ++ mkRecord 100 550 0 0 [0, 0, 0, 0]

/-- Distances 2.0 km then 1.0 km in distinct seconds (float32 `2.0` is
`00 00 00 40`, `1.0` is `00 00 80 3F`). -/
def bufC6 : List Nat :=
  blankHeader ++ mkRecord 100 0 0 0 [0, 0, 0, 64] ++ mkRecord 100 1000 0 0 [0, 0, 128, 63]

/-- Distances 1.0 km then 2.0 km in distinct seconds. -/
def bufC6w : List Nat :=
  blankHeader ++ mkRecord 100 0 0 0 [0, 0, 128, 63] ++ mkRecord 100 1000 0 0 [0, 0, 0, 64]

/-- A single record whose distance float is +∞ (`00 00 80 7F`). -/
def bufC8 : List Nat :=
  blankHeader ++ mkRecord 100 0 0 0 [0, 0, 128, 127]

/-- First record at 5000 ms, second at 1000 ms: a backward timestamp jump. -/
def bufC10w : List Nat :=
  blankHeader ++ mkRecord 100 5000 0 0 [0, 0, 0, 0] ++ mkRecord 101 1000 0 0 [0, 0, 0, 0]

/-- 320 zero bytes: long enough, no signature match anywhere. -/
def bufZeros : List Nat := List.replicate 320 0

end PerfPro

deriving instance DecidableEq for Except

namespace PerfPro

theorem num_eq_mul_den (q : ℚ) : (q.num : ℚ) = q * q.den := by
  nth_rewrite 2 [← Rat.num_div_den q]
  have hd : ((q.den : ℚ)) ≠ 0 := by exact_mod_cast q.den_nz
  field_simp

theorem abs_eq_natAbs_div_den (x : ℚ) :
    |x| = ((x.num.natAbs : ℤ) : ℚ) / (x.den : ℚ) := by
  push_cast [Int.cast_natAbs]
  nth_rewrite 1 [← Rat.num_div_den x]
  rw [abs_div]
  congr 1
  exact abs_of_pos (by exact_mod_cast x.den_pos)

namespace JsNum

theorem mul1000_fin (q : ℚ) : mkRat (q.num * 1000) q.den = q * 1000 := by
  have hd : ((q.den : ℚ)) ≠ 0 := by exact_mod_cast q.den_nz
  rw [Rat.mkRat_eq_div]
  push_cast
  rw [div_eq_iff hd, num_eq_mul_den q]
  ring

theorem le_trans : ∀ a b c : JsNum, le a b = true → le b c = true → le a c = true := by
  intro a b c hab hbc
  cases a <;> cases b <;> cases c <;> simp_all [le] <;>
    first
      | exact hab.trans hbc
      | (cases hab <;> cases hbc <;> simp_all)

theorem le_mul1000 : ∀ a b : JsNum, le a b = true → le (mul1000 a) (mul1000 b) = true := by
  intro a b h
  cases a <;> cases b <;> simp_all [le, mul1000, mul1000_fin]

end JsNum

theorem jsRound_eq (q : ℚ) : jsRound q = ⌊q + 1 / 2⌋ := by
  unfold jsRound
  have hb : (0 : ℤ) < 2 * (q.den : ℤ) := by positivity
  have h := Int.ediv_add_emod (2 * q.num + q.den) (2 * q.den)
  have h2 := Int.emod_nonneg (2 * q.num + q.den) (ne_of_gt hb)
  have h4 := Int.emod_lt_of_pos (2 * q.num + q.den) hb
  have h1 : ((2 * q.num + q.den) / (2 * q.den)) * (2 * q.den) ≤ 2 * q.num + q.den := by
    linarith
  have h3 : 2 * q.num + (q.den : ℤ) <
      ((2 * q.num + q.den) / (2 * q.den) + 1) * (2 * q.den) := by
    linarith
  have hbq : (0 : ℚ) < ((2 * q.den : ℤ) : ℚ) := by exact_mod_cast hb
  have hq : q + 1 / 2 = ((2 * q.num + q.den : ℤ) : ℚ) / ((2 * q.den : ℤ) : ℚ) := by
    rw [eq_div_iff (ne_of_gt hbq)]
    push_cast
    rw [num_eq_mul_den q]
    ring
  symm
  rw [Int.floor_eq_iff, hq]
  constructor
  · rw [le_div_iff₀ hbq]
    exact_mod_cast h1
  · rw [div_lt_iff₀ hbq]
    exact_mod_cast h3

/-- `avgInt` is `Math.round` of the arithmetic mean. -/
theorem avgInt_eq (arr : List Nat) :
    avgInt arr = ⌊((arr.sum : ℚ) / (arr.length : ℚ)) + 1 / 2⌋ := by
  unfold avgInt
  rw [jsRound_eq, Rat.mkRat_eq_div]
  norm_num
  have hcast : ((Int.cast ∘ Nat.cast : ℕ → ℚ)) = (Nat.cast : ℕ → ℚ) := by
    funext n
    simp
  rw [hcast]

/-- For a positive record count the cross-multiplied integer test used in
`mkWorkout` is exactly `count / total > SENSOR_THRESHOLD`. -/
theorem sensor_iff (r n : Nat) (hn : n ≠ 0) :
    n < 20 * r ↔ SENSOR_THRESHOLD < (r : ℚ) / (n : ℚ) := by
  have hnq : (0 : ℚ) < (n : ℚ) := by exact_mod_cast Nat.pos_of_ne_zero hn
  unfold SENSOR_THRESHOLD
  rw [div_lt_div_iff₀ (by norm_num) hnq, one_mul]
  constructor
  · intro h
    have h2 : (n : ℚ) < 20 * r := by exact_mod_cast h
    linarith
  · intro h
    have h2 : (n : ℚ) < 20 * r := by linarith
    exact_mod_cast h2

/-- The scaled value rounded inside `fixed2Chars` is `⌊100·|x| + 1/2⌋`. -/
theorem fixed2_n_eq (x : ℚ) :
    jsRound (mkRat (100 * x.num.natAbs : ℤ) x.den) = ⌊|x| * 100 + 1 / 2⌋ := by
  rw [jsRound_eq, Rat.mkRat_eq_div, abs_eq_natAbs_div_den x]
  push_cast
  congr 2
  ring

/-- The branch test of `toFixed2` is the ECMA `10²¹ ≤ |x|` test. -/
theorem big_iff (q : ℚ) :
    ((10 ^ 21 : ℤ) * q.den ≤ q.num.natAbs) ↔ ((10 ^ 21 : ℚ) ≤ |q|) := by
  have hdq : (0 : ℚ) < (q.den : ℚ) := by exact_mod_cast q.den_pos
  rw [abs_eq_natAbs_div_den q, le_div_iff₀ hdq]
  constructor
  · intro h
    exact_mod_cast h
  · intro h
    exact_mod_cast h

theorem acceptStep_nosig (bytes : List Nat) (l : List RawRec) (i : Nat)
    (hsig : isDataRecord bytes (recOffset i) = false) :
    acceptStep bytes l i = l := by
  unfold acceptStep
  simp [hsig]

theorem acceptStep_none (bytes : List Nat) (l : List RawRec) (i : Nat)
    (hsig : isDataRecord bytes (recOffset i) = true) (hl : l.getLast? = none) :
    acceptStep bytes l i = l ++ [readRec bytes (recOffset i)] := by
  unfold acceptStep
  simp [hsig, hl]

theorem acceptStep_gap (bytes : List Nat) (l : List RawRec) (i : Nat) (p : RawRec)
    (hsig : isDataRecord bytes (recOffset i) = true) (hl : l.getLast? = some p)
    (hgap : ((readRec bytes (recOffset i)).ms : ℤ) - p.ms > MAX_DELTA_MS) :
    acceptStep bytes l i = l := by
  unfold acceptStep
  simp [hsig, hl, hgap]

theorem acceptStep_ok (bytes : List Nat) (l : List RawRec) (i : Nat) (p : RawRec)
    (hsig : isDataRecord bytes (recOffset i) = true) (hl : l.getLast? = some p)
    (hgap : ¬ ((readRec bytes (recOffset i)).ms : ℤ) - p.ms > MAX_DELTA_MS) :
    acceptStep bytes l i = l ++ [readRec bytes (recOffset i)] := by
  unfold acceptStep
  simp [hsig, hl, hgap]

theorem bucketsW_concat (l : List RawRec) (r : RawRec) :
    bucketsW (l ++ [r]) = mapPush (bucketsW l) (r.ms / 1000) r.watts := by
  simp [bucketsW, List.foldl_append]

theorem bucketsC_concat (l : List RawRec) (r : RawRec) :
    bucketsC (l ++ [r]) = mapPush (bucketsC l) (r.ms / 1000) r.cadence := by
  simp [bucketsC, List.foldl_append]

theorem bucketsH_concat (l : List RawRec) (r : RawRec) :
    bucketsH (l ++ [r]) = mapPush (bucketsH l) (r.ms / 1000) r.hr := by
  simp [bucketsH, List.foldl_append]

theorem bucketsD_concat (l : List RawRec) (r : RawRec) :
    bucketsD (l ++ [r]) =
      if r.distKm.gtZero then mapSet (bucketsD l) (r.ms / 1000) r.distKm else bucketsD l := by
  simp [bucketsD, List.foldl_append]

/-- One slot of the loop acting on a reconstructed state is the
reconstruction of one accept-step. -/
theorem scanStep_stateOf (bytes : List Nat) (l : List RawRec) (i : Nat) :
    scanStep bytes (stateOf l) i = stateOf (acceptStep bytes l i) := by
  unfold scanStep acceptStep
  simp only [recOffset]
  by_cases hd : isDataRecord bytes (RECORD_START + i * RECORD_SIZE)
  · simp only [hd, if_true]
    cases hl : l.getLast? with
    | none =>
      simp [stateOf, hl, readRec, bucketsW_concat, bucketsC_concat, bucketsH_concat,
        bucketsD_concat, countCad, countHR, lastMs, List.countP_append, List.countP_cons,
        List.getLast?_concat]
    | some p =>
      by_cases hgap : ((readUint32LE bytes (RECORD_START + i * RECORD_SIZE +
          TIMESTAMP_MS_OFFSET) : ℤ) - p.ms > MAX_DELTA_MS)
      · simp [stateOf, hl, hgap, readRec]
      · simp [stateOf, hl, hgap, readRec, bucketsW_concat, bucketsC_concat, bucketsH_concat,
          bucketsD_concat, countCad, countHR, lastMs, List.countP_append, List.countP_cons,
          List.getLast?_concat]
  · simp [hd]

/-- The loop state is the reconstruction of the accepted-record list. -/
theorem scanAll_eq (bytes : List Nat) :
    scanAll bytes = stateOf (acceptedRecords bytes) := by
  unfold scanAll acceptedRecords
  generalize totalSlots bytes = n
  induction n with
  | zero => rfl
  | succ n ih =>
    rw [List.range_succ, List.foldl_append, List.foldl_append]
    simp only [List.foldl_cons, List.foldl_nil]
    rw [ih, scanStep_stateOf]

/-- Success characterisation of `parse3dp`. -/
theorem parse3dp_ok_iff (bytes : List Nat) (w : Workout) :
    parse3dp bytes = .ok w ↔
      RECORD_START + RECORD_SIZE ≤ bytes.length ∧
        acceptedRecords bytes ≠ [] ∧ w = mkWorkout bytes := by
  unfold parse3dp
  rw [scanAll_eq]
  by_cases hlen : bytes.length < RECORD_START + RECORD_SIZE
  · simp [hlen, Nat.not_le.mpr hlen, tooSmallMsg]
  · by_cases hacc : acceptedRecords bytes = []
    · simp [hlen, hacc, stateOf, noDataMsg]
    · have hcnt : (stateOf (acceptedRecords bytes)).validCount ≠ 0 := by
        simpa [stateOf, List.length_eq_zero] using hacc
      constructor
      · intro h
        simp only [if_neg hlen, if_neg hcnt] at h
        exact ⟨Nat.not_lt.mp hlen, hacc, ((Except.ok.injEq _ _).mp h).symm⟩
      · intro h
        obtain ⟨_, _, hw⟩ := h
        simp [hlen, hcnt, hw]

theorem pairwise_of_chainB {α : Type} (R : α → α → Bool)
    (htrans : ∀ a b c, R a b = true → R b c = true → R a c = true) :
    ∀ l : List α, chainB R l = true → List.Pairwise (fun a b => R a b = true) l
  | [], _ => List.Pairwise.nil
  | [a], _ => by simp
  | a :: b :: t, h => by
    simp only [chainB, Bool.and_eq_true] at h
    have ih := pairwise_of_chainB R htrans (b :: t) h.2
    refine List.Pairwise.cons ?_ ih
    intro y hy
    rcases List.mem_cons.mp hy with rfl | hy'
    · exact h.1
    · exact htrans a b y h.1 ((List.pairwise_cons.mp ih).1 y hy')

theorem chainB_of_pairwise {α : Type} (R : α → α → Bool) :
    ∀ l : List α, List.Pairwise (fun a b => R a b = true) l → chainB R l = true
  | [], _ => rfl
  | [_], _ => rfl
  | a :: b :: t, h => by
    simp only [chainB, Bool.and_eq_true]
    obtain ⟨ha, htail⟩ := List.pairwise_cons.mp h
    exact ⟨ha b (by simp), chainB_of_pairwise R (b :: t) htail⟩

theorem pairwise_filterMap_of {α β : Type} (f : α → Option β) {R : α → α → Prop}
    {S : β → β → Prop}
    (h : ∀ a b x y, R a b → f a = some x → f b = some y → S x y) :
    ∀ l : List α, List.Pairwise R l → List.Pairwise S (l.filterMap f)
  | [], _ => by simp
  | a :: t, hp => by
    obtain ⟨ha, ht⟩ := List.pairwise_cons.mp hp
    rw [List.filterMap_cons]
    cases hfa : f a with
    | none => exact pairwise_filterMap_of f h t ht
    | some x =>
      refine List.Pairwise.cons ?_ (pairwise_filterMap_of f h t ht)
      intro y hy
      obtain ⟨b, hb, hfb⟩ := List.mem_filterMap.mp hy
      exact h a b x y (ha b hb) hfa hfb

theorem sortedKeys_pairwise (l : List Nat) : List.Pairwise (· < ·) (sortedKeys l) :=
  (List.pairwise_lt_range _).sublist (List.filter_sublist _)

theorem find?_set_self (k : Nat) (v : JsNum) :
    ∀ m : List (Nat × JsNum), m.any (fun e => e.1 == k) = true →
      (m.map (fun e => if e.1 == k then (k, v) else e)).find? (fun e => e.1 == k) =
        some (k, v)
  | [], h => by simp at h
  | e :: m, h => by
    rw [List.map_cons]
    by_cases he : e.1 = k
    · have hek : (e.1 == k) = true := beq_iff_eq.mpr he
      have hfe : (if e.1 == k then (k, v) else e) = (k, v) := if_pos hek
      rw [hfe]
      exact List.find?_cons_of_pos _ (by simp)
    · have hek : (e.1 == k) = false := beq_eq_false_iff_ne.mpr he
      have hfe : (if e.1 == k then (k, v) else e) = e := if_neg (by simp [hek])
      have hk' : m.any (fun e => e.1 == k) = true := by
        simpa [List.any_cons, hek] using h
      rw [hfe, List.find?_cons_of_neg _ (by simp [hek])]
      exact find?_set_self k v m hk'

theorem find?_set_ne (k s : Nat) (v : JsNum) (hne : s ≠ k) :
    ∀ m : List (Nat × JsNum),
      (m.map (fun e => if e.1 == k then (k, v) else e)).find? (fun e => e.1 == s) =
        m.find? (fun e => e.1 == s)
  | [] => rfl
  | e :: m => by
    have hks : ((k : Nat) == s) = false := beq_eq_false_iff_ne.mpr (fun h => hne h.symm)
    rw [List.map_cons]
    by_cases he : e.1 = k
    · have hek : (e.1 == k) = true := beq_iff_eq.mpr he
      have hes : (e.1 == s) = false := beq_eq_false_iff_ne.mpr (by
        rw [he]
        exact fun h => hne h.symm)
      have hfe : (if e.1 == k then (k, v) else e) = (k, v) := if_pos hek
      rw [hfe, List.find?_cons_of_neg _ (by simp [hks]),
        List.find?_cons_of_neg _ (by simp [hes])]
      exact find?_set_ne k s v hne m
    · have hek : (e.1 == k) = false := beq_eq_false_iff_ne.mpr he
      have hfe : (if e.1 == k then (k, v) else e) = e := if_neg (by simp [hek])
      rw [hfe]
      by_cases hes : e.1 = s
      · have hes' : (e.1 == s) = true := beq_iff_eq.mpr hes
        rw [List.find?_cons_of_pos _ (by simp [hes']),
          List.find?_cons_of_pos _ (by simp [hes'])]
      · have hes' : (e.1 == s) = false := beq_eq_false_iff_ne.mpr hes
        rw [List.find?_cons_of_neg _ (by simp [hes']),
          List.find?_cons_of_neg _ (by simp [hes'])]
        exact find?_set_ne k s v hne m

theorem find?_none_of_not_any (p : Nat) :
    ∀ m : List (Nat × JsNum), ¬ m.any (fun e => e.1 == p) = true →
      m.find? (fun e => e.1 == p) = none := by
  intro m hm
  rw [List.find?_eq_none]
  intro e he hbe
  exact hm (List.any_eq_true.mpr ⟨e, he, hbe⟩)

/-- `m.get(s)` after `m.set(k, v)` at the written key. -/
theorem mapLookup_mapSet_self (m : List (Nat × JsNum)) (k : Nat) (v : JsNum) :
    mapLookup (mapSet m k v) k = some v := by
  unfold mapSet mapLookup
  by_cases hk : m.any (fun e => e.1 == k)
  · rw [if_pos hk, find?_set_self k v m hk]
    rfl
  · rw [if_neg hk, List.find?_append, find?_none_of_not_any k m hk]
    simp

/-- `m.get(s)` after `m.set(k, v)` at a different key. -/
theorem mapLookup_mapSet_ne (m : List (Nat × JsNum)) (k s : Nat) (v : JsNum)
    (hne : s ≠ k) : mapLookup (mapSet m k v) s = mapLookup m s := by
  unfold mapSet mapLookup
  by_cases hk : m.any (fun e => e.1 == k)
  · rw [if_pos hk, find?_set_ne k s v hne m]
  · rw [if_neg hk, List.find?_append]
    have hks : ¬ ((k : Nat) = s) := fun h => hne h.symm
    have h1 : List.find? (fun e => e.1 == s) [(k, v)] = none := by
      simp [hks]
    rw [h1]
    simp

theorem mem_of_getLast?_eq_some {α : Type} {l : List α} {a : α}
    (h : l.getLast? = some a) : a ∈ l := by
  have hne : l ≠ [] := by
    intro he
    subst he
    simp at h
  rw [List.getLast?_eq_getLast_of_ne_nil hne] at h
  injection h with h
  exact h ▸ List.getLast_mem hne

theorem lastPosDist_concat_skip (l : List RawRec) (r : RawRec) (s : Nat)
    (hf : List.filter (fun x => x.ms / 1000 == s && x.distKm.gtZero) [r] = []) :
    lastPosDist (l ++ [r]) s = lastPosDist l s := by
  unfold lastPosDist
  rw [List.filter_append, hf, List.append_nil]

theorem lastPosDist_concat_hit (l : List RawRec) (r : RawRec) (s : Nat)
    (hsec : r.ms / 1000 = s) (hpos : r.distKm.gtZero = true) :
    lastPosDist (l ++ [r]) s = some r.distKm := by
  unfold lastPosDist
  have hf : List.filter (fun x => x.ms / 1000 == s && x.distKm.gtZero) [r] = [r] := by
    simp [hsec, hpos]
  rw [List.filter_append, hf, List.getLast?_concat]
  rfl

/-- The `distBySecond` map holds, per present second, exactly the last
positive distance reading of that second. -/
theorem lookup_bucketsD (s : Nat) (l : List RawRec) :
    mapLookup (bucketsD l) s = lastPosDist l s := by
  induction l using List.reverseRecOn with
  | nil => rfl
  | append_singleton l r ih =>
    rw [bucketsD_concat]
    by_cases hpos : r.distKm.gtZero = true
    · rw [if_pos hpos]
      by_cases hsec : r.ms / 1000 = s
      · rw [hsec, mapLookup_mapSet_self, lastPosDist_concat_hit l r s hsec hpos]
      · rw [mapLookup_mapSet_ne _ _ _ _ (fun h => hsec h.symm), ih,
          lastPosDist_concat_skip l r s (by simp [hsec])]
    · rw [if_neg hpos, ih, lastPosDist_concat_skip l r s (by simp [hpos])]

/-- Monotonicity of retained bucket distances: under non-decreasing
timestamps and non-decreasing positive distance readings, a later second's
retained distance is at least an earlier second's. -/
theorem lastPos_mono (l : List RawRec)
    (hms : List.Pairwise (fun a b : RawRec => a.ms ≤ b.ms) l)
    (hd : List.Pairwise (fun a b : JsNum => JsNum.le a b = true)
      ((l.filter (fun r => r.distKm.gtZero)).map (fun r => r.distKm))) :
    ∀ s1 s2 d1 d2, s1 < s2 →
      lastPosDist l s1 = some d1 → lastPosDist l s2 = some d2 →
      JsNum.le d1 d2 = true := by
  induction l using List.reverseRecOn with
  | nil =>
    intro s1 s2 d1 d2 _ h1 _
    simp [lastPosDist] at h1
  | append_singleton l r ih =>
    intro s1 s2 d1 d2 h12 h1 h2
    rw [List.pairwise_append] at hms
    obtain ⟨hmsL, -, hcross⟩ := hms
    have hfd : (l ++ [r]).filter (fun r => r.distKm.gtZero) =
        l.filter (fun r => r.distKm.gtZero) ++
          (if r.distKm.gtZero = true then [r] else []) := by
      rw [List.filter_append]
      by_cases hp : r.distKm.gtZero = true <;> simp [hp]
    rw [hfd, List.map_append, List.pairwise_append] at hd
    obtain ⟨hdL, -, hdcross⟩ := hd
    have hmem : ∀ s d, lastPosDist l s = some d →
        ∃ x : RawRec, x ∈ l ∧ x.ms / 1000 = s ∧ x.distKm.gtZero = true ∧
          x.distKm = d := by
      intro s d hsd
      unfold lastPosDist at hsd
      obtain ⟨x, hx, hxd⟩ := Option.map_eq_some'.mp hsd
      have hxmem := mem_of_getLast?_eq_some hx
      rw [List.mem_filter] at hxmem
      obtain ⟨hxl, hxp⟩ := hxmem
      rw [Bool.and_eq_true] at hxp
      exact ⟨x, hxl, by simpa using hxp.1, hxp.2, hxd⟩
    by_cases hpos : r.distKm.gtZero = true
    · by_cases hs2 : r.ms / 1000 = s2
      · rw [lastPosDist_concat_hit l r s2 hs2 hpos] at h2
        have hd2 : d2 = r.distKm := by
          injection h2 with h2
          exact h2.symm
        have hs1ne : ¬ (r.ms / 1000 = s1) := by
          rw [hs2]
          omega
        rw [lastPosDist_concat_skip l r s1 (by simp [hs1ne])] at h1
        obtain ⟨x, hxl, -, hxp, hxd⟩ := hmem s1 d1 h1
        have hx1 : d1 ∈ (l.filter (fun r => r.distKm.gtZero)).map
            (fun r => r.distKm) := by
          rw [List.mem_map]
          exact ⟨x, List.mem_filter.mpr ⟨hxl, hxp⟩, hxd⟩
        have hle := hdcross d1 hx1 r.distKm (by simp [hpos])
        rw [hd2]
        exact hle
      · rw [lastPosDist_concat_skip l r s2 (by simp [hs2])] at h2
        by_cases hs1 : r.ms / 1000 = s1
        · obtain ⟨x, hxl, hxs, -, -⟩ := hmem s2 d2 h2
          have hxr : x.ms ≤ r.ms := hcross x hxl r (by simp)
          have hcontra : s2 ≤ s1 := by
            rw [← hxs, ← hs1]
            exact Nat.div_le_div_right hxr
          omega
        · rw [lastPosDist_concat_skip l r s1 (by simp [hs1])] at h1
          exact ih hmsL hdL s1 s2 d1 d2 h12 h1 h2
    · rw [lastPosDist_concat_skip l r s2 (by simp [hpos])] at h2
      rw [lastPosDist_concat_skip l r s1 (by simp [hpos])] at h1
      exact ih hmsL hdL s1 s2 d1 d2 h12 h1 h2

theorem digitChar_digit (k : Nat) (hk : k < 10) : isDigitB (digitChar k) = true := by
  interval_cases k <;> decide

theorem isDigitB_not_dot (c : Char) (h : isDigitB c = true) : (c == '.') = false := by
  cases hbe : (c == '.') with
  | false => rfl
  | true =>
    have hc : c = '.' := beq_iff_eq.mp hbe
    subst hc
    exact absurd h (by decide)

theorem natDigitsAux_digits : ∀ (fuel n : Nat), ∀ c ∈ natDigitsAux fuel n, isDigitB c = true
  | 0, n => by
    intro c hc
    simp [natDigitsAux] at hc
  | fuel + 1, n => by
    intro c hc
    unfold natDigitsAux at hc
    by_cases h : n < 10
    · rw [if_pos h] at hc
      simp at hc
      subst hc
      exact digitChar_digit n h
    · rw [if_neg h] at hc
      rw [List.mem_append] at hc
      rcases hc with hc | hc
      · exact natDigitsAux_digits fuel (n / 10) c hc
      · simp at hc
        subst hc
        exact digitChar_digit (n % 10) (Nat.mod_lt _ (by norm_num))

theorem noDotB_of_all (l : List Char) (h : ∀ c ∈ l, (c == '.') = false) :
    noDotB l = true := by
  induction l with
  | nil => rfl
  | cons c t ih =>
    unfold noDotB
    rw [Bool.and_eq_true]
    constructor
    · rw [h c (by simp)]
      rfl
    · exact ih (fun d hd => h d (by simp [hd]))

theorem natDigitsAux_small (fuel k : Nat) (hf : 0 < fuel) (hk : k < 10) :
    natDigitsAux fuel k = [digitChar k] := by
  cases fuel with
  | zero => omega
  | succ f =>
    unfold natDigitsAux
    rw [if_pos hk]

theorem pad2Chars_eq (m : Nat) (hm : m < 100) :
    ∃ a b, pad2Chars m = [a, b] ∧ isDigitB a = true ∧ isDigitB b = true := by
  unfold pad2Chars natChars
  by_cases h : m < 10
  · rw [if_pos h, natDigitsAux_small (m + 1) m (by omega) h]
    exact ⟨'0', digitChar m, rfl, by decide, digitChar_digit m h⟩
  · rw [if_neg h]
    have hsplit : natDigitsAux (m + 1) m = natDigitsAux m (m / 10) ++ [digitChar (m % 10)] := by
      conv_lhs => unfold natDigitsAux
      rw [if_neg h]
    rw [hsplit, natDigitsAux_small m (m / 10) (by omega) (by omega)]
    exact ⟨digitChar (m / 10), digitChar (m % 10), by simp,
      digitChar_digit _ (by omega), digitChar_digit _ (Nat.mod_lt _ (by norm_num))⟩

/-- `toFixed(2)` on any finite value below the 10²¹ threshold renders with
exactly two decimal digits. -/
theorem twoDecB_fixed2 (x : ℚ) : twoDecB (toFixed2Q x) = true := by
  unfold toFixed2Q fixed2Chars
  set n : Nat := (jsRound (mkRat (100 * x.num.natAbs : ℤ) x.den)).toNat with hn
  obtain ⟨a, b, hab, ha, hb⟩ := pad2Chars_eq (n % 100) (Nat.mod_lt _ (by norm_num))
  rw [hab]
  have hrest : noDotB ((natChars (n / 100)).reverse ++
      (if x < 0 then ['-'] else []).reverse) = true := by
    apply noDotB_of_all
    intro c hc
    rw [List.mem_append] at hc
    rcases hc with hc | hc
    · rw [List.mem_reverse] at hc
      exact isDigitB_not_dot c (natDigitsAux_digits (n / 100 + 1) (n / 100) c hc)
    · rw [List.mem_reverse] at hc
      by_cases hx : x < 0
      · rw [if_pos hx] at hc
        simp at hc
        subst hc
        rfl
      · rw [if_neg hx] at hc
        simp at hc
  unfold twoDecB
  simp only [List.reverse_append, List.reverse_cons, List.reverse_nil, List.nil_append,
    List.cons_append, List.append_assoc]
  simp [ha, hb, hrest]

/-- `lastDist ? lastDist.distMeters : 0` as a bind-with-default, for
stating claim C8 directly. -/
theorem match_bind (o : Option Trackpoint) :
    (match o with
      | some t => t.distMeters.getD (JsNum.fin 0)
      | none => JsNum.fin 0) =
      (o.bind (fun t => t.distMeters)).getD (JsNum.fin 0) := by
  cases o <;> rfl

/-! ## Claims -/

/-- C1: for every input buffer on which decode succeeds, the reported
duration equals `⌊m / 1000⌋` where `m` is the embedded millisecond timestamp
of the last accepted record in scan order — it is a function of that
timestamp alone, not of the count or position of records. -/
theorem C1_duration_from_last_timestamp (bytes : List Nat) (w : Workout)
    (hok : parse3dp bytes = .ok w) :
    ∃ r : RawRec, (acceptedRecords bytes).getLast? = some r ∧
      w.stats.durationSec = r.ms / 1000 := by
  obtain ⟨-, hne, hw⟩ := (parse3dp_ok_iff bytes w).mp hok
  obtain ⟨r, hr⟩ := Option.ne_none_iff_exists'.mp (mt List.getLast?_eq_none_iff.mp hne)
  refine ⟨r, hr, ?_⟩
  subst hw
  show (scanAll bytes).lastValidMs / 1000 = r.ms / 1000
  rw [scanAll_eq]
  simp [stateOf, lastMs, hr]

theorem C1_duration_from_last_timestamp_witness :
    parse3dp bufA = .ok (mkWorkout bufA) ∧
      ∃ r : RawRec, (acceptedRecords bufA).getLast? = some r ∧
        (mkWorkout bufA).stats.durationSec = r.ms / 1000 :=
  ⟨by rfl, C1_duration_from_last_timestamp bufA (mkWorkout bufA) (by rfl)⟩

/-- C2: a signature-matching record whose timestamp exceeds the previously
accepted one by more than 5000 ms is discarded: the whole scan state (every
bucket map, every counter, the previous-timestamp cursor and the last-valid
timestamp) is unchanged, and the accepted-record list is unchanged; in
particular decoding the timestamp sequence `[0, 550, 1100, 1100000000]`
gives exactly the result of decoding only its first three records. -/
theorem C2_gap_discard :
    (∀ (bytes : List Nat) (st : ScanState) (i pms : Nat),
        isDataRecord bytes (recOffset i) = true →
        st.prevMs = some pms →
        ((readUint32LE bytes (recOffset i + TIMESTAMP_MS_OFFSET) : ℤ) - pms > MAX_DELTA_MS) →
        scanStep bytes st i = st) ∧
    (∀ (bytes : List Nat) (l : List RawRec) (i : Nat) (p : RawRec),
        isDataRecord bytes (recOffset i) = true →
        l.getLast? = some p →
        (((readRec bytes (recOffset i)).ms : ℤ) - p.ms > MAX_DELTA_MS) →
        acceptStep bytes l i = l) ∧
    parse3dp bufC2 = parse3dp bufC2three := by
  refine ⟨?_, ?_, ?_⟩
  · intro bytes st i pms hsig hprev hgap
    unfold scanStep
    simp only [recOffset] at hsig hgap
    simp [hsig, hprev, hgap]
  · intro bytes l i p hsig hlast hgap
    exact acceptStep_gap bytes l i p hsig hlast hgap
  · have hs : scanAll bufC2 = scanAll bufC2three := by decide
    have hn : readNullTermString bufC2 HEADER_NAME_OFFSET 64 =
        readNullTermString bufC2three HEADER_NAME_OFFSET 64 := by decide
    have h1 : ¬ (bufC2.length < RECORD_START + RECORD_SIZE) := by decide
    have h2 : ¬ (bufC2three.length < RECORD_START + RECORD_SIZE) := by decide
    unfold parse3dp mkWorkout
    rw [hs, hn, if_neg h1, if_neg h2]

theorem C2_gap_discard_witness :
    (isDataRecord bufC2 (recOffset 3) = true ∧
        (stateOf (acceptedRecords bufC2three)).prevMs = some 1100 ∧
        ((readUint32LE bufC2 (recOffset 3 + TIMESTAMP_MS_OFFSET) : ℤ) - 1100 > MAX_DELTA_MS) ∧
        scanStep bufC2 (stateOf (acceptedRecords bufC2three)) 3 =
          stateOf (acceptedRecords bufC2three)) ∧
      parse3dp bufC2 = parse3dp bufC2three :=
  ⟨⟨by decide, by decide, by decide,
      C2_gap_discard.1 bufC2 (stateOf (acceptedRecords bufC2three)) 3 1100
        (by decide) (by decide) (by decide)⟩,
    C2_gap_discard.2.2⟩

/-- C3: for every decoded workout, the cadence flag is true iff the number
of accepted records whose cadence reading is neither the default 90 nor 0,
divided by the number of accepted records, strictly exceeds the 0.05
threshold — and likewise for heart rate with default 50.  (The 5%−1 and 6%
instances in the claim are immediate arithmetic consequences of this
equivalence.) -/
theorem C3_sensor_threshold (bytes : List Nat) (w : Workout)
    (hok : parse3dp bytes = .ok w) :
    (w.stats.hasCadence = true ↔
      SENSOR_THRESHOLD <
        (countCad (acceptedRecords bytes) : ℚ) / ((acceptedRecords bytes).length : ℚ)) ∧
    (w.stats.hasHR = true ↔
      SENSOR_THRESHOLD <
        (countHR (acceptedRecords bytes) : ℚ) / ((acceptedRecords bytes).length : ℚ)) := by
  obtain ⟨-, hne, hw⟩ := (parse3dp_ok_iff bytes w).mp hok
  subst hw
  have hn : (acceptedRecords bytes).length ≠ 0 := by
    simpa [List.length_eq_zero] using hne
  have h1 : (mkWorkout bytes).stats.hasCadence
      = decide ((acceptedRecords bytes).length < 20 * countCad (acceptedRecords bytes)) := by
    show decide ((scanAll bytes).validCount < 20 * (scanAll bytes).realCadence) = _
    rw [scanAll_eq]
    rfl
  have h2 : (mkWorkout bytes).stats.hasHR
      = decide ((acceptedRecords bytes).length < 20 * countHR (acceptedRecords bytes)) := by
    show decide ((scanAll bytes).validCount < 20 * (scanAll bytes).realHR) = _
    rw [scanAll_eq]
    rfl
  constructor
  · rw [h1, decide_eq_true_eq]
    exact sensor_iff _ _ hn
  · rw [h2, decide_eq_true_eq]
    exact sensor_iff _ _ hn

theorem C3_sensor_threshold_witness :
    parse3dp bufC3 = .ok (mkWorkout bufC3) ∧
      ((mkWorkout bufC3).stats.hasCadence = true ↔
        SENSOR_THRESHOLD <
          (countCad (acceptedRecords bufC3) : ℚ) / ((acceptedRecords bufC3).length : ℚ)) ∧
      (mkWorkout bufC3).stats.hasCadence = true ∧ (mkWorkout bufC3).stats.hasHR = false :=
  ⟨by rfl, (C3_sensor_threshold bufC3 (mkWorkout bufC3) (by rfl)).1, by rfl, by rfl⟩

/-- C7: the emitted per-bucket averages (power always; cadence and heart
rate whenever emitted) are `avgInt` of the bucket's readings, and `avgInt`
is the arithmetic mean rounded to the nearest integer with halves rounded
up: it is the unique integer `a` with `a − 1/2 ≤ mean < a + 1/2`; in
particular a bucket with power readings 100 and 101 (mean 100.5) yields
trackpoint power 101. -/
theorem C7_half_up_rounding :
    (∀ arr : List Nat, arr ≠ [] →
      ((avgInt arr : ℚ) - 1 / 2 ≤ (arr.sum : ℚ) / (arr.length : ℚ) ∧
        (arr.sum : ℚ) / (arr.length : ℚ) < (avgInt arr : ℚ) + 1 / 2)) ∧
    (∀ (bytes : List Nat) (w : Workout) (tp : Trackpoint),
      parse3dp bytes = .ok w → tp ∈ w.trackpoints →
        tp.watts = avgInt (getList (bucketsW (acceptedRecords bytes)) tp.sec) ∧
        (∀ c : ℤ, tp.cadence = some c →
          c = avgInt (getList (bucketsC (acceptedRecords bytes)) tp.sec)) ∧
        (∀ h : ℤ, tp.hr = some h →
          h = avgInt (getList (bucketsH (acceptedRecords bytes)) tp.sec))) ∧
    avgInt [100, 101] = 101 := by
  refine ⟨?_, ?_, by decide⟩
  · intro arr _
    have h := avgInt_eq arr
    constructor
    · have hle : (⌊(arr.sum : ℚ) / (arr.length : ℚ) + 1 / 2⌋ : ℚ) ≤
          (arr.sum : ℚ) / (arr.length : ℚ) + 1 / 2 := Int.floor_le _
      rw [h]
      linarith
    · have hlt : (arr.sum : ℚ) / (arr.length : ℚ) + 1 / 2 <
          ⌊(arr.sum : ℚ) / (arr.length : ℚ) + 1 / 2⌋ + 1 := Int.lt_floor_add_one _
      rw [h]
      push_cast
      push_cast at hlt
      linarith
  · intro bytes w tp hok htp
    obtain ⟨-, -, hw⟩ := (parse3dp_ok_iff bytes w).mp hok
    subst hw
    simp only [mkWorkout, mkWorkoutFrom] at htp
    rw [List.mem_map] at htp
    obtain ⟨sec, hsec, rfl⟩ := htp
    rw [scanAll_eq]
    refine ⟨rfl, ?_, ?_⟩
    · intro c hc
      by_cases hflag : (stateOf (acceptedRecords bytes)).validCount <
          20 * (stateOf (acceptedRecords bytes)).realCadence
      · by_cases hz :
            avgInt (getList (stateOf (acceptedRecords bytes)).cadenceBySecond sec) = 0
        · simp [hflag, hz] at hc
        · simp [hflag, hz] at hc
          exact hc.symm
      · simp [hflag] at hc
    · intro h hc
      by_cases hflag : (stateOf (acceptedRecords bytes)).validCount <
          20 * (stateOf (acceptedRecords bytes)).realHR
      · by_cases hz :
            avgInt (getList (stateOf (acceptedRecords bytes)).hrBySecond sec) = 0
        · simp [hflag, hz] at hc
        · simp [hflag, hz] at hc
          exact hc.symm
      · simp [hflag] at hc

theorem C7_half_up_rounding_witness :
    ([100, 101] ≠ ([] : List Nat)) ∧
      ((avgInt [100, 101] : ℚ) - 1 / 2 ≤
          (([100, 101] : List Nat).sum : ℚ) / (([100, 101] : List Nat).length : ℚ) ∧
        (([100, 101] : List Nat).sum : ℚ) / (([100, 101] : List Nat).length : ℚ) <
          (avgInt [100, 101] : ℚ) + 1 / 2) ∧
      avgInt [100, 101] = 101 ∧
      parse3dp bufA = .ok (mkWorkout bufA) ∧
      (mkWorkout bufA).trackpoints.map (fun tp => tp.watts) = [101] :=
  ⟨by decide, C7_half_up_rounding.1 [100, 101] (by decide), by decide, by rfl, by decide⟩

/-- C9: the serializer is a pure function of the workout and the start
instant — two invocations on the same inputs yield identical output text.
(The JavaScript `buildTcx` reads nothing but its arguments and module-level
constants, so it is modelled as a function, for which this is definitional.)
-/
theorem C9_serializer_deterministic (w : Workout) (startMs : ℤ) :
    buildTcx w startMs = buildTcx w startMs := rfl

/-- C4: a buffer shorter than the header region plus one 48-byte record slot
(0x110 + 48 bytes) makes decode fail with the too-small-file error and
produce no workout. -/
theorem C4_too_small (bytes : List Nat)
    (h : bytes.length < RECORD_START + RECORD_SIZE) :
    parse3dp bytes = .error tooSmallMsg := by
  unfold parse3dp
  simp [h]

theorem C4_too_small_witness :
    ([] : List Nat).length < RECORD_START + RECORD_SIZE ∧
      parse3dp [] = .error tooSmallMsg :=
  ⟨by decide, C4_too_small [] (by decide)⟩

/-- C5: a buffer that passes the size check but in which no record slot
passes both the signature check and the timestamp-delta filter (that is, the
accepted-record list is empty) makes decode fail with the no-data error and
produce no partial workout. -/
theorem C5_no_data (bytes : List Nat)
    (hlen : RECORD_START + RECORD_SIZE ≤ bytes.length)
    (hacc : acceptedRecords bytes = []) :
    parse3dp bytes = .error noDataMsg := by
  unfold parse3dp
  rw [scanAll_eq, hacc]
  simp [Nat.not_lt.mpr hlen, stateOf]

theorem C5_no_data_witness :
    RECORD_START + RECORD_SIZE ≤ bufZeros.length ∧ acceptedRecords bufZeros = [] ∧
      parse3dp bufZeros = .error noDataMsg :=
  ⟨by decide, by decide, C5_no_data bufZeros (by decide) (by decide)⟩

/-- C10: a signature-matching slot is discarded by the timestamp filter iff
a record was already accepted and the new timestamp exceeds the previous
accepted timestamp by more than 5000 ms; hence the first signature-matching
record is always accepted whatever its timestamp, and a record whose
timestamp is smaller than the previous accepted one (a backward jump of any
size) is always accepted and becomes both the new previous-timestamp cursor
and the last-valid timestamp. -/
theorem C10_delta_filter_scope (bytes : List Nat) (l : List RawRec) (i : Nat)
    (hsig : isDataRecord bytes (recOffset i) = true) :
    (acceptStep bytes l i = l ↔
      ∃ p : RawRec, l.getLast? = some p ∧
        ((readRec bytes (recOffset i)).ms : ℤ) - p.ms > MAX_DELTA_MS) ∧
    (l = [] → acceptStep bytes l i = [readRec bytes (recOffset i)]) ∧
    (∀ p : RawRec, l.getLast? = some p → (readRec bytes (recOffset i)).ms < p.ms →
      acceptStep bytes l i = l ++ [readRec bytes (recOffset i)] ∧
        (acceptStep bytes l i).getLast? = some (readRec bytes (recOffset i)) ∧
        (scanStep bytes (stateOf l) i).prevMs = some (readRec bytes (recOffset i)).ms ∧
        (scanStep bytes (stateOf l) i).lastValidMs = (readRec bytes (recOffset i)).ms) := by
  have hgrow : ∀ m : List RawRec, ¬m ++ [readRec bytes (recOffset i)] = m := by
    intro m h
    have := congrArg List.length h
    simp at this
  refine ⟨⟨?_, ?_⟩, ?_, ?_⟩
  · intro heq
    cases hl : l.getLast? with
    | none =>
      rw [acceptStep_none bytes l i hsig hl] at heq
      exact absurd heq (hgrow l)
    | some p =>
      by_cases hgap : ((readRec bytes (recOffset i)).ms : ℤ) - p.ms > MAX_DELTA_MS
      · exact ⟨p, rfl, hgap⟩
      · rw [acceptStep_ok bytes l i p hsig hl hgap] at heq
        exact absurd heq (hgrow l)
  · intro h
    obtain ⟨p, hp, hgap⟩ := h
    exact acceptStep_gap bytes l i p hsig hp hgap
  · intro he
    subst he
    rw [acceptStep_none bytes [] i hsig rfl]
    rfl
  · intro p hp hlt
    have hgap : ¬ ((readRec bytes (recOffset i)).ms : ℤ) - p.ms > MAX_DELTA_MS := by
      have h1 : ((readRec bytes (recOffset i)).ms : ℤ) ≤ p.ms := by exact_mod_cast hlt.le
      have h0 : (MAX_DELTA_MS : ℤ) = 5000 := rfl
      omega
    have hstep := acceptStep_ok bytes l i p hsig hp hgap
    refine ⟨hstep, by rw [hstep]; exact List.getLast?_concat _, ?_, ?_⟩
    · rw [scanStep_stateOf, hstep]
      simp [stateOf, List.getLast?_concat]
    · rw [scanStep_stateOf, hstep]
      simp [stateOf, lastMs, List.getLast?_concat]

theorem C10_delta_filter_scope_witness :
    isDataRecord bufC10w (recOffset 1) = true ∧
      (acceptedRecords bufC10w).take 1 = [readRec bufC10w (recOffset 0)] ∧
      (readRec bufC10w (recOffset 1)).ms < (readRec bufC10w (recOffset 0)).ms ∧
      acceptStep bufC10w [readRec bufC10w (recOffset 0)] 1 =
        [readRec bufC10w (recOffset 0), readRec bufC10w (recOffset 1)] ∧
      (scanStep bufC10w (stateOf [readRec bufC10w (recOffset 0)]) 1).prevMs =
        some (readRec bufC10w (recOffset 1)).ms := by
  refine ⟨by decide, by decide, by decide, ?_, ?_⟩
  · have h := ((C10_delta_filter_scope bufC10w [readRec bufC10w (recOffset 0)] 1
      (by decide)).2.2 (readRec bufC10w (recOffset 0)) (by decide) (by decide)).1
    simpa using h
  · exact ((C10_delta_filter_scope bufC10w [readRec bufC10w (recOffset 0)] 1
      (by decide)).2.2 (readRec bufC10w (recOffset 0)) (by decide) (by decide)).2.2.1

/-- C6 (as stated) is false: `bufC6` carries positive float32 distances
2.0 km then 1.0 km in two different seconds; decode succeeds and the emitted
distance sequence [2000, 1000] decreases — the decoder never enforces
monotonicity on the raw readings. -/
theorem C6_distance_monotonic_counterexample : ¬ decodeDistMono bufC6 := by
  intro h
  have h2 := h (mkWorkout bufC6) rfl
  have h3 : chainB JsNum.le (distSeq (mkWorkout bufC6)) = false := by decide
  unfold distancesNonDecreasing at h2
  rw [h2] at h3
  cases h3

/-- C6 (amended): for every buffer on which decode succeeds whose accepted
records have non-decreasing embedded timestamps and non-decreasing positive
distance readings in scan order, the sequence of non-absent distance values
across the ordered trackpoints is monotonic non-decreasing. -/
theorem C6_distance_monotonic (bytes : List Nat) (w : Workout)
    (hok : parse3dp bytes = .ok w)
    (hms : chainB (fun a b : RawRec => decide (a.ms ≤ b.ms)) (acceptedRecords bytes) = true)
    (hdist : chainB JsNum.le
      (((acceptedRecords bytes).filter (fun r => r.distKm.gtZero)).map
        (fun r => r.distKm)) = true) :
    distancesNonDecreasing w := by
  obtain ⟨-, -, hw⟩ := (parse3dp_ok_iff bytes w).mp hok
  subst hw
  have hmsP : List.Pairwise (fun a b : RawRec => a.ms ≤ b.ms) (acceptedRecords bytes) := by
    have h := pairwise_of_chainB _ (fun a b c hab hbc => by
      rw [decide_eq_true_eq] at *
      omega) _ hms
    exact h.imp (fun hab => of_decide_eq_true hab)
  have hdP := pairwise_of_chainB JsNum.le JsNum.le_trans _ hdist
  unfold distancesNonDecreasing
  apply chainB_of_pairwise
  have hseq : distSeq (mkWorkout bytes) =
      (sortedKeys ((scanAll bytes).wattsBySecond.map Prod.fst)).filterMap
        (fun sec => (mapLookup (scanAll bytes).distBySecond sec).map JsNum.mul1000) := by
    unfold distSeq
    simp only [mkWorkout, mkWorkoutFrom]
    rw [List.filterMap_map]
    rfl
  rw [hseq]
  apply pairwise_filterMap_of _ ?_ _ (sortedKeys_pairwise _)
  intro s1 s2 x y h12 hx hy
  rw [scanAll_eq] at hx hy
  have hbx : (stateOf (acceptedRecords bytes)).distBySecond =
      bucketsD (acceptedRecords bytes) := rfl
  rw [hbx, lookup_bucketsD] at hx hy
  obtain ⟨d1, hd1, hd1x⟩ := Option.map_eq_some'.mp hx
  obtain ⟨d2, hd2, hd2y⟩ := Option.map_eq_some'.mp hy
  have hle := lastPos_mono (acceptedRecords bytes) hmsP hdP s1 s2 d1 d2 h12 hd1 hd2
  rw [← hd1x, ← hd2y]
  exact JsNum.le_mul1000 d1 d2 hle

/-- C8 (as stated) is false for non-finite totals: `bufC8` has a single
record whose distance float is +∞ (+∞ passes the `> 0` filter), decode
succeeds, and the lap total renders as `Infinity` — not a two-decimal
value. -/
theorem C8_total_distance_counterexample :
    parse3dp bufC8 = .ok (mkWorkout bufC8) ∧
      twoDecB (toFixed2 (mkWorkout bufC8).stats.totalDistMeters) = false :=
  ⟨by rfl, by decide⟩

/-- C8 (amended): the summary total distance equals the distance value of
the last trackpoint (scanning backward) whose distance is non-absent, or
zero when none exists; the serializer renders exactly that value in the lap
block through `toFixed(2)`, which produces exactly two decimal digits
whenever the total is a finite value of magnitude below 10²¹ (and `0.00`
when it is the absent-case zero); a non-finite total such as Infinity is
not rendered in two-decimal form. -/
theorem C8_total_distance :
    (∀ (bytes : List Nat) (w : Workout), parse3dp bytes = .ok w →
      w.stats.totalDistMeters =
        ((w.trackpoints.reverse.find? (fun tp => tp.distMeters.isSome)).bind
          (fun tp => tp.distMeters)).getD (JsNum.fin 0)) ∧
    (∀ (w : Workout) (startMs : ℤ), ∃ pre post : String,
      buildTcx w startMs = pre ++ toFixed2 w.stats.totalDistMeters ++ post) ∧
    (∀ q : ℚ, |q| < 10 ^ 21 →
      toFixed2 (.fin q) = toFixed2Q q ∧ twoDecB (toFixed2Q q) = true) ∧
    toFixed2 (.fin 0) = "0.00" := by
  refine ⟨?_, ?_, ?_, by decide⟩
  · intro bytes w hok
    obtain ⟨-, -, hw⟩ := (parse3dp_ok_iff bytes w).mp hok
    subst hw
    exact match_bind _
  · intro w startMs
    exact ⟨tcxBeforeDist w startMs, tcxAfterDist w startMs, rfl⟩
  · intro q hq
    have hbig : ¬ ((10 ^ 21 : ℤ) * q.den ≤ q.num.natAbs) := by
      rw [big_iff]
      exact not_le.mpr hq
    constructor
    · simp only [toFixed2]
      rw [if_neg hbig]
    · exact twoDecB_fixed2 q

theorem C8_total_distance_witness :
    parse3dp bufC6w = .ok (mkWorkout bufC6w) ∧
      (mkWorkout bufC6w).stats.totalDistMeters =
        (((mkWorkout bufC6w).trackpoints.reverse.find?
            (fun tp => tp.distMeters.isSome)).bind
          (fun tp => tp.distMeters)).getD (JsNum.fin 0) ∧
      (|(0 : ℚ)| < 10 ^ 21 ∧ twoDecB (toFixed2Q 0) = true) :=
  ⟨by rfl,
    C8_total_distance.1 bufC6w (mkWorkout bufC6w) (by rfl),
    by simp,
    (C8_total_distance.2.2.1 0 (by simp)).2⟩

theorem C6_distance_monotonic_witness :
    parse3dp bufC6w = .ok (mkWorkout bufC6w) ∧
      chainB (fun a b : RawRec => decide (a.ms ≤ b.ms)) (acceptedRecords bufC6w) = true ∧
      chainB JsNum.le (((acceptedRecords bufC6w).filter (fun r => r.distKm.gtZero)).map
        (fun r => r.distKm)) = true ∧
      distancesNonDecreasing (mkWorkout bufC6w) :=
  ⟨by rfl, by decide, by decide,
    C6_distance_monotonic bufC6w (mkWorkout bufC6w) (by rfl) (by decide) (by decide)⟩

end PerfPro

